import Mathlib

/-!
Verification development for the BaiduPCS-Go compress/upload core
(`internal/pcsfunctions/pcscompress`): a shallow embedding in Lean of

* `queue.go`  — `CompressQueue` with its `Execute` run loop, the
  pause/stop polling, the lifecycle hooks, and `AddTask`'s default
  target-name choice;
* the compression task (`compress.go`) — pre-scan (`countFiles`),
  disk-space preflight (`checkDiskSpace`), archive-writing walk,
  `GetSubDirectories`, and the naming helpers;
* the statistics aggregator and the compress-then-upload bridge unit
  (`CompressUploadTaskUnit.Run`).

Machine integers (Go `int64`) are modelled as `Nat`/`Int` (sizes are
non-negative and far from overflow in every statement below); filesystem
and remote effects are modelled by explicit inputs (a directory tree
value, a free-space query result, an upload verdict).
-/

namespace PCS

/-! ## Queue status and run loop (`queue.go`)

`CompressQueue.status` is an atomic word written by `Stop`/`Pause`/`Resume`
from arbitrary threads.  Every `GetStatus()` load inside `Execute` is
modelled by consuming the head of a `sched : List QueueStatus` — the
sequence of values those loads observe.  (Any finite sequence of observed
values is realizable: `Pause` stores `Paused` from any state, `Stop`
stores `Stopped`, `Resume` swaps `Paused` to `Running`.)  Once `sched` is
exhausted the loads observe `Running`, i.e. no further external
interference. -/

inductive QueueStatus where
  | Idle
  | Running
  | Paused
  | Stopped
deriving DecidableEq, Repr

/-- One `GetStatus()` load: consume the head of the observation schedule. -/
def readStatus : List QueueStatus → QueueStatus × List QueueStatus
  | [] => (QueueStatus.Running, [])
  | s :: r => (s, r)

/-- The pause-polling loop inside `Execute`:
`for GetStatus() == Paused { sleep; if GetStatus() == Stopped { return } }`.
Returns `false` when the inner `Stopped` check fired (early `return` from
`Execute`), `true` when the `while` condition saw a non-`Paused` status and
the loop fell through to run the item. -/
def pausePoll : List QueueStatus → Bool × List QueueStatus
  | [] => (true, [])
  | s :: rest =>
    if s = QueueStatus.Paused then
      match rest with
      | [] => (true, [])
      | t :: rest2 =>
        if t = QueueStatus.Stopped then (false, rest2)
        else pausePoll rest2
    else (true, rest)

/-- Terminal tag of a queue item, `CompressQueueItem.Status` in the source
(`"pending"`, `"running"`, `"completed"`, `"failed"`). -/
inductive ItemStatus where
  | pending
  | running
  | completed
  | failed
deriving DecidableEq, Repr

def ItemStatus.isTerminal : ItemStatus → Bool
  | .completed => true
  | .failed => true
  | _ => false

/-- A `CompressQueueItem`: `taskSuccess` is the success flag the wrapped
task's `Execute()` will report when run; `status`/`hasResult` mirror the
item's mutable fields. -/
structure QueueItemM where
  taskSuccess : Bool
  status : ItemStatus := ItemStatus.pending
  hasResult : Bool := false
deriving DecidableEq, Repr

/-- Running one item inside the loop: `Status = "running"`, the task
executes, the result is stored and the status becomes `"completed"` or
`"failed"` (only the final field values are observable after `Execute`
returns). -/
def runItem (it : QueueItemM) : QueueItemM :=
  { it with
    status := if it.taskSuccess then ItemStatus.completed else ItemStatus.failed
    hasResult := true }

/-- Observable callback events of one `Execute` run. -/
inductive QEvent where
  | taskStart (idx : Nat)
  | taskComplete (idx : Nat)
  | queueComplete
deriving DecidableEq, Repr

def QEvent.isQueueComplete : QEvent → Bool
  | .queueComplete => true
  | _ => false

/-- How the `Execute` run loop was left. -/
inductive ExitKind where
  | rejected
  | natural
  | stopBreak
  | pauseStopReturn
deriving DecidableEq, Repr

/-- The `for i := range cq.items` loop of `Execute`: per item, one
`GetStatus` load for the `Stopped` break check, then the pause-polling
loop, then the item runs (firing `OnTaskStart`/`OnTaskComplete`). -/
def runLoop (idx : Nat) : List QueueItemM → List QueueStatus →
    List QueueItemM × List QEvent × ExitKind
  | [], _ => ([], [], ExitKind.natural)
  | it :: rest, sched =>
    let rs := readStatus sched
    if rs.1 = QueueStatus.Stopped then (it :: rest, [], ExitKind.stopBreak)
    else
      let pp := pausePoll rs.2
      if pp.1 then
        let r := runLoop (idx + 1) rest pp.2
        (runItem it :: r.1,
          QEvent.taskStart idx :: QEvent.taskComplete idx :: r.2.1, r.2.2)
      else (it :: rest, [], ExitKind.pauseStopReturn)

structure ExecOutcome where
  items : List QueueItemM
  trace : List QEvent
  bexit : ExitKind
  finalStatus : QueueStatus
deriving DecidableEq, Repr

/-- `CompressQueue.Execute`: the initial CAS `Idle → Running` (a non-idle
queue returns at once), the run loop, the `OnQueueComplete` call after the
loop — reached by natural completion and by the `break`, but not by the
early `return` inside the pause poll — and the deferred store of `Idle`. -/
def queueExecute (status0 : QueueStatus) (items : List QueueItemM)
    (sched : List QueueStatus) : ExecOutcome :=
  if status0 = QueueStatus.Idle then
    let r := runLoop 0 items sched
    if r.2.2 = ExitKind.pauseStopReturn then
      ⟨r.1, r.2.1, r.2.2, QueueStatus.Idle⟩
    else
      ⟨r.1, r.2.1 ++ [QEvent.queueComplete], r.2.2, QueueStatus.Idle⟩
  else
    ⟨items, [], ExitKind.rejected, status0⟩

/-- Schedule on which `Stop()` takes effect exactly after item `k`
completes: the `2*k` loads made while running the first `k` items observe
`Running`, the break check before item `k+1` observes `Stopped`. -/
def stopAfterSched (k : Nat) : List QueueStatus :=
  List.replicate (2 * k) QueueStatus.Running ++ [QueueStatus.Stopped]

/-- The interleaved `OnTaskStart`/`OnTaskComplete` trace of `k` items
starting at index `idx`. -/
def expectedTrace (idx : Nat) : Nat → List QEvent
  | 0 => []
  | k + 1 => QEvent.taskStart idx :: QEvent.taskComplete idx ::
      expectedTrace (idx + 1) k

/-! ## `AddTask` default target naming (`queue.go` + naming helpers) -/

/-- `GenerateSimpleZipName`: base name of the source plus `".zip"`. -/
def generateSimpleZipName (base : String) : String := base ++ ".zip"

/-- `GenerateUniqueZipName`: base name, `"_"`, a second-resolution
timestamp (opaque input here), `".zip"`. -/
def generateUniqueZipName (base : String) (timestamp : String) : String :=
  base ++ "_" ++ timestamp ++ ".zip"

/-- The target path `AddTask` stores when called with `targetZipPath`:
an empty target is defaulted from the *current* item count — the simple
name when `len(cq.items) == 1`, the unique name otherwise. -/
def addTaskChosenTarget (itemCount : Nat) (target : String)
    (base : String) (timestamp : String) : String :=
  if target = "" then
    if itemCount = 1 then generateSimpleZipName base
    else generateUniqueZipName base timestamp
  else target

structure QTask where
  source : String
  target : String
deriving DecidableEq, Repr

/-- `AddTask`: append one pending item whose target is the chosen name
(path-absolutization is identity in this model). -/
def addTask (items : List QTask) (source target base timestamp : String) :
    List QTask :=
  items ++ [⟨source, addTaskChosenTarget items.length target base timestamp⟩]

/-! ## The compression task (`compress.go`)

The source directory tree is a value: each file carries its size and the
outcome its byte-level operations would have during the archive-writing
walk (`os.Open` / `io.Copy`).  Children are listed in the order
`filepath.Walk` visits them. -/

/-- Outcome of opening and copying one file during the write walk. -/
inductive FileMode where
  | ok
  | openPermDenied
  | openOtherErr
  | copyErr
deriving DecidableEq, Repr

mutual
inductive FSEntry where
  | file (name : String) (size : Nat) (mode : FileMode) : FSEntry
  | dir (name : String) (children : FSList) : FSEntry
inductive FSList where
  | nil : FSList
  | cons (e : FSEntry) (rest : FSList) : FSList
end

def entryName : FSEntry → String
  | .file n _ _ => n
  | .dir n _ => n

/-- Hiddenness test used by both walks:
`strings.HasPrefix(base, ".") && base != "." && base != ".."`. -/
def isHidden (name : String) : Bool :=
  name.data.head? == some '.' && !(name == ".") && !(name == "..")

/-! The pre-scan `countFiles`: walk the tree, prune hidden directories and
skip hidden files when `IncludeHidden` is off, and return
`(TotalFiles, TotalSize)` over the remaining files. -/
mutual
def countWalkE (inc : Bool) : FSEntry → Nat × Nat
  | .file _ sz _ => (1, sz)
  | .dir _ cs => countWalkL inc cs
def countWalkL (inc : Bool) : FSList → Nat × Nat
  | .nil => (0, 0)
  | .cons e r =>
    let a := if !inc && isHidden (entryName e) then (0, 0) else countWalkE inc e
    let b := countWalkL inc r
    (a.1 + b.1, a.2 + b.2)
end

/-! `countFiles` on the whole task: `filepath.Walk` visits the source root
itself first, so a hidden root (with hidden excluded) prunes everything. -/
def ctCountFiles (inc : Bool) (rootName : String) (cs : FSList) : Nat × Nat :=
  if !inc && isHidden rootName then (0, 0) else countWalkL inc cs

/-- `checkDiskSpace`: a failed `syscall.Statfs` (`freeSpace = none`) makes
the check a no-op (`return nil`); otherwise the task fails when the
pre-scanned total size exceeds `Bavail * Bsize`. -/
def checkDiskSpace (freeSpace : Option Nat) (totalSize : Nat) : Option Bool :=
  match freeSpace with
  | none => none
  | some free => if totalSize > free then some true else none

/-- Why the archive-writing walk aborted. -/
inductive WalkAbort where
  | openFailed (path : String)
  | copyFailed (path : String)
deriving DecidableEq, Repr

/-! The archive-writing walk, per entry.  The first component is the list
of zip entry names written (markers end in `"/"`); the second is either
the abort that ended the walk or `(processedFiles, compressedSize)`.
Mirrors the `filepath.Walk` callback in `Execute`:
* a hidden entry is pruned/skipped (handled in `zipWalkList`),
* a directory gets a marker entry `zipPath + "/"` and is descended,
* a file first gets its header entry (`CreateHeader` precedes `os.Open`,
  so a permission-skipped file leaves a zero-length entry behind), then a
  permission error on `os.Open` skips the file with a warning, any other
  open error or a `io.Copy` error aborts the walk. -/
mutual
def zipWalkEntry (inc : Bool) (pfx : String) :
    FSEntry → List String × Except WalkAbort (Nat × Nat)
  | .file nm sz m =>
    let p := pfx ++ "/" ++ nm
    match m with
    | .ok => ([p], .ok (1, sz))
    | .openPermDenied => ([p], .ok (0, 0))
    | .openOtherErr => ([p], .error (.openFailed p))
    | .copyErr => ([p], .error (.copyFailed p))
  | .dir nm cs =>
    let d := pfx ++ "/" ++ nm
    let w := zipWalkList inc d cs
    ((d ++ "/") :: w.1, w.2)
def zipWalkList (inc : Bool) (pfx : String) :
    FSList → List String × Except WalkAbort (Nat × Nat)
  | .nil => ([], .ok (0, 0))
  | .cons e r =>
    if !inc && isHidden (entryName e) then zipWalkList inc pfx r
    else
      match zipWalkEntry inc pfx e with
      | (es, .error a) => (es, .error a)
      | (es, .ok pc) =>
        match zipWalkList inc pfx r with
        | (es2, .error a) => (es ++ es2, .error a)
        | (es2, .ok pc2) => (es ++ es2, .ok (pc.1 + pc2.1, pc.2 + pc2.2))
end

/-! The walk from the source root: the root directory itself is visited
first (hidden root with hidden excluded prunes everything); its zip path
is `filepath.Join(sourceBase, ".") = sourceBase`, so its marker entry is
`sourceBase + "/"` and every child path hangs below `sourceBase`. -/
def zipWalkRoot (inc : Bool) (rootName : String) (cs : FSList) :
    List String × Except WalkAbort (Nat × Nat) :=
  if !inc && isHidden rootName then ([], .ok (0, 0))
  else
    let w := zipWalkList inc rootName cs
    ((rootName ++ "/") :: w.1, w.2)

/-- `os.Stat(SourcePath)` outcome when the source is unusable. -/
inductive StatErr where
  | notExist
  | permDenied
  | otherErr
deriving DecidableEq, Repr

/-- Error classification of `CompressTask.Execute` (the empty-directory
case is an anonymous `errors.New("目录为空，没有文件可压缩")` in the
source; the others are the named sentinel errors). -/
inductive CErr where
  | sourceNotExist
  | sourceNotDirectory
  | permissionDenied
  | diskSpaceInsufficient
  | emptyDirectory
  | createZipFailed
  | compressFailed
  | statOther
deriving DecidableEq, Repr

structure CompressResultM where
  success : Bool := false
  totalFiles : Nat := 0
  totalSize : Nat := 0
  compressedSize : Nat := 0
  error : Option CErr := none
deriving DecidableEq, Repr

/-- `taskExecute`'s observable effect: the result plus whether
`os.Create(TargetZipPath)` ran (the archive file exists on disk) and the
zip entries written. -/
structure ExecOut where
  result : CompressResultM
  archiveCreated : Bool := false
  entries : List String := []
deriving DecidableEq, Repr

/-- `CompressTask.Execute`: stat/classify the source, pre-scan, reject an
empty scan, disk-space preflight, create the archive (`createFail`:
`some true` = permission error, `some false` = other error), then the
write walk; a walk error is wrapped as `ErrCompressFailed`, otherwise the
result carries the pre-scan totals and the written byte count. -/
def taskExecute (inc : Bool) (src : Except StatErr FSEntry)
    (freeSpace : Option Nat) (createFail : Option Bool) : ExecOut :=
  match src with
  | .error .notExist => { result := { error := some CErr.sourceNotExist } }
  | .error .permDenied => { result := { error := some CErr.permissionDenied } }
  | .error .otherErr => { result := { error := some CErr.statOther } }
  | .ok (.file _ _ _) => { result := { error := some CErr.sourceNotDirectory } }
  | .ok (.dir rootName cs) =>
    let nf := ctCountFiles inc rootName cs
    if nf.1 = 0 then { result := { error := some CErr.emptyDirectory } }
    else
      match checkDiskSpace freeSpace nf.2 with
      | some _ => { result := { error := some CErr.diskSpaceInsufficient } }
      | none =>
        match createFail with
        | some true => { result := { error := some CErr.permissionDenied } }
        | some false => { result := { error := some CErr.createZipFailed } }
        | none =>
          let w := zipWalkRoot inc rootName cs
          match w.2 with
          | .error _ =>
            { result := { error := some CErr.compressFailed },
              archiveCreated := true, entries := w.1 }
          | .ok pc =>
            { result := { success := true, totalFiles := nf.1,
                          totalSize := nf.2, compressedSize := pc.2 },
              archiveCreated := true, entries := w.1 }

/-! Spec-side counting functions used to state the archive-content
theorems (they follow the claims' vocabulary, and are related to the
walk functions above by proof). -/

/-! Number of directories the walk visits (and writes markers for) below
the root: every non-hidden directory, empty or not. -/
mutual
def eligDirsE (inc : Bool) : FSEntry → Nat
  | .file _ _ _ => 0
  | .dir _ cs => 1 + eligDirsL inc cs
def eligDirsL (inc : Bool) : FSList → Nat
  | .nil => 0
  | .cons e r =>
    (if !inc && isHidden (entryName e) then 0 else eligDirsE inc e) +
      eligDirsL inc r
end

/-! `(count, bytes)` of eligible files whose open+copy succeed — the files
the walk actually packages (permission-skipped files excluded). -/
mutual
def okStatsE (inc : Bool) : FSEntry → Nat × Nat
  | .file _ sz m => if m = FileMode.ok then (1, sz) else (0, 0)
  | .dir _ cs => okStatsL inc cs
def okStatsL (inc : Bool) : FSList → Nat × Nat
  | .nil => (0, 0)
  | .cons e r =>
    let a := if !inc && isHidden (entryName e) then (0, 0) else okStatsE inc e
    let b := okStatsL inc r
    (a.1 + b.1, a.2 + b.2)
end

/-! No eligible file would abort the walk (its mode is `ok` or
`openPermDenied`). -/
def FileMode.aborts : FileMode → Bool
  | .openOtherErr => true
  | .copyErr => true
  | _ => false

mutual
def noAbortE (inc : Bool) : FSEntry → Bool
  | .file _ _ m => !m.aborts
  | .dir _ cs => noAbortL inc cs
def noAbortL (inc : Bool) : FSList → Bool
  | .nil => true
  | .cons e r =>
    (if !inc && isHidden (entryName e) then true else noAbortE inc e) &&
      noAbortL inc r
end

/-! Number of empty directories (no entries at all) in the tree — the
directories for which the claim under test predicts a marker entry. -/
mutual
def emptyDirCountE : FSEntry → Nat
  | .file _ _ _ => 0
  | .dir _ FSList.nil => 1
  | .dir _ (FSList.cons e r) => emptyDirCountL (FSList.cons e r)
def emptyDirCountL : FSList → Nat
  | .nil => 0
  | .cons e r => emptyDirCountE e + emptyDirCountL r
end

/-- Wellformed entry names: nonempty, no `/` — what a real filesystem
guarantees for path components. -/
def goodName (s : String) : Bool :=
  !s.data.isEmpty && !s.data.contains '/'

mutual
def wfE : FSEntry → Bool
  | .file n _ _ => goodName n
  | .dir n cs => goodName n && wfL cs
def wfL : FSList → Bool
  | .nil => true
  | .cons e r => wfE e && wfL r
end

/-- A zip entry name "ends in `/`" (is a directory marker). -/
def endsWithSlash (s : String) : Bool :=
  s.data.getLast? == some '/'

/-! ## `GetSubDirectories` (`compress.go`)

Directories are returned as full paths built by `filepath.Join`, modelled
as `parentPath ++ "/" ++ name`; children are listed in visiting order.
Hidden entries are *not* filtered here. -/

/-! The `filepath.Walk` branch (`depth` not 0 and not 1): a non-directory
is skipped; the parent itself (`relPath == "."`) is skipped; `cd` is
`strings.Count(relPath, sep) + 1`; a directory with `depth > 0 && cd >
depth` is pruned (`SkipDir`: not collected, not descended); a directory
with `depth < 0 || cd <= depth` is collected; descent continues. -/
mutual
def walkDirsE (depth : Int) (pfx : String) (cd : Nat) : FSEntry → List String
  | .file _ _ _ => []
  | .dir n cs =>
    let p := pfx ++ "/" ++ n
    if depth > 0 ∧ (cd : Int) > depth then []
    else
      (if depth < 0 ∨ (cd : Int) ≤ depth then [p] else []) ++
        walkDirsL depth p (cd + 1) cs
def walkDirsL (depth : Int) (pfx : String) (cd : Nat) : FSList → List String
  | .nil => []
  | .cons e r => walkDirsE depth pfx cd e ++ walkDirsL depth pfx cd r
end

/-- The `depth == 1` branch: `os.ReadDir` and keep the immediate child
directories. -/
def readDirImmediate (pp : String) : FSList → List String
  | .nil => []
  | .cons (.dir n _) r => (pp ++ "/" ++ n) :: readDirImmediate pp r
  | .cons (.file _ _ _) r => readDirImmediate pp r

/-- `GetSubDirectories(parentPath, depth)`; `none` models
`ErrSourceNotDirectory` when the parent is not a directory. -/
def getSubDirectories (parent : FSEntry) (parentPath : String)
    (depth : Int) : Option (List String) :=
  match parent with
  | .file _ _ _ => none
  | .dir _ cs =>
    if depth = 0 then some [parentPath]
    else if depth = 1 then some (readDirImmediate parentPath cs)
    else some (walkDirsL depth parentPath 1 cs)

/-! Spec-side directory listings used to state the `GetSubDirectories`
claim: every nested directory, and directories down to a level budget. -/

mutual
def allDirsE (pfx : String) : FSEntry → List String
  | .file _ _ _ => []
  | .dir n cs => (pfx ++ "/" ++ n) :: allDirsL (pfx ++ "/" ++ n) cs
def allDirsL (pfx : String) : FSList → List String
  | .nil => []
  | .cons e r => allDirsE pfx e ++ allDirsL pfx r
end

/-! `dirsUpToE pfx b`: directories within `b` further levels (`b = 0`
collects nothing and descends nowhere). -/
mutual
def dirsUpToE (pfx : String) (b : Nat) : FSEntry → List String
  | .file _ _ _ => []
  | .dir n cs =>
    match b with
    | 0 => []
    | b' + 1 => (pfx ++ "/" ++ n) :: dirsUpToL (pfx ++ "/" ++ n) b' cs
def dirsUpToL (pfx : String) (b : Nat) : FSList → List String
  | .nil => []
  | .cons e r => dirsUpToE pfx b e ++ dirsUpToL pfx b r
end

/-! ## Statistics aggregator and the compress-upload bridge unit
(`statistic.go`, `upload_unit.go`) -/

/-- `CompressStatistic` counters (`int64` atomics). -/
structure StatsM where
  totalSize : Int := 0
  compressedSize : Int := 0
  fileCount : Int := 0
deriving DecidableEq, Repr

/-- The three `Add*` calls `Run` makes after a successful compression. -/
def statAddCompress (st : StatsM) (cr : CompressResultM) : StatsM :=
  { totalSize := st.totalSize + (cr.totalSize : Int)
    compressedSize := st.compressedSize + (cr.compressedSize : Int)
    fileCount := st.fileCount + (cr.totalFiles : Int) }

/-- The Go error strings of the sentinel errors (for `%v` formatting of
messages). -/
def cerrText : CErr → String
  | .sourceNotExist => "源路径不存在"
  | .sourceNotDirectory => "源路径不是目录"
  | .permissionDenied => "权限不足"
  | .diskSpaceInsufficient => "磁盘空间不足"
  | .emptyDirectory => "目录为空，没有文件可压缩"
  | .createZipFailed => "创建ZIP文件失败"
  | .compressFailed => "压缩失败"
  | .statOther => "stat错误"

def errText : Option CErr → String
  | none => "<nil>"
  | some e => cerrText e

/-- `taskframework.TaskUnitRunResult` as `Run` fills it. -/
structure TaskRunResultM where
  succeed : Bool := false
  needRetry : Bool := false
  err : Option CErr := none
  resultMessage : String := ""
deriving DecidableEq, Repr

structure BridgeRunOut where
  result : TaskRunResultM
  statistic : Option StatsM
  uploadAttempted : Bool
  archiveDeleted : Bool
deriving DecidableEq, Repr

/-- `CompressUploadTaskUnit.Run`: run the fresh compression task (its
result `cr` is an input here), on failure return a non-retryable result
with the error and message and touch nothing else; on success add the
three counters to the attached aggregator (if any), run the upload
(verdict `uploadRes`, `none` modelling a nil result which leaves the
zero-value result in place), and delete the local archive when the upload
succeeded and `DeleteAfterUpload` is set (`removeFails`: `os.Remove`
failed, which is only logged). -/
def bridgeRun (cr : CompressResultM) (stats : Option StatsM)
    (uploadRes : Option TaskRunResultM) (deleteAfterUpload : Bool)
    (removeFails : Bool) : BridgeRunOut :=
  if !cr.success then
    { result := { succeed := false, needRetry := false, err := cr.error
                  resultMessage := "压缩失败: " ++ errText cr.error }
      statistic := stats, uploadAttempted := false, archiveDeleted := false }
  else
    let stats' := match stats with
      | none => none
      | some st => some (statAddCompress st cr)
    let res := match uploadRes with
      | none => ({} : TaskRunResultM)
      | some u => u
    let deleted := res.succeed && deleteAfterUpload && !removeFails
    { result := res, statistic := stats', uploadAttempted := true
      archiveDeleted := deleted }

/-! ## Unfolding equations for the tree-walk functions

The mutual definitions over `FSEntry`/`FSList` are compiled through the
mutual recursor, so their defining equations are re-stated here as plain
rewrite rules (one per constructor, split on the hidden test where one
occurs). -/

@[simp] theorem countWalkE_file (inc : Bool) (n : String) (sz : Nat)
    (m : FileMode) : countWalkE inc (FSEntry.file n sz m) = (1, sz) := by
  rw [countWalkE.eq_def]

@[simp] theorem countWalkE_dir (inc : Bool) (n : String) (cs : FSList) :
    countWalkE inc (FSEntry.dir n cs) = countWalkL inc cs := by
  rw [countWalkE.eq_def]

@[simp] theorem countWalkL_nil (inc : Bool) :
    countWalkL inc FSList.nil = (0, 0) := by
  rw [countWalkL.eq_def]

theorem countWalkL_cons (inc : Bool) (e : FSEntry) (r : FSList) :
    countWalkL inc (FSList.cons e r) =
      ((if !inc && isHidden (entryName e) then (0, 0) else countWalkE inc e).1
          + (countWalkL inc r).1,
       (if !inc && isHidden (entryName e) then (0, 0) else countWalkE inc e).2
          + (countWalkL inc r).2) := by
  rw [countWalkL.eq_def]

theorem countWalkL_cons_hidden (inc : Bool) (e : FSEntry) (r : FSList)
    (h : (!inc && isHidden (entryName e)) = true) :
    countWalkL inc (FSList.cons e r) = countWalkL inc r := by
  rw [countWalkL_cons]
  simp [h]

theorem countWalkL_cons_vis (inc : Bool) (e : FSEntry) (r : FSList)
    (h : (!inc && isHidden (entryName e)) = false) :
    countWalkL inc (FSList.cons e r) =
      ((countWalkE inc e).1 + (countWalkL inc r).1,
       (countWalkE inc e).2 + (countWalkL inc r).2) := by
  rw [countWalkL_cons]
  simp [h]

@[simp] theorem zipWalkEntry_dir (inc : Bool) (pfx : String) (nm : String)
    (cs : FSList) :
    zipWalkEntry inc pfx (FSEntry.dir nm cs) =
      ((pfx ++ "/" ++ nm ++ "/") :: (zipWalkList inc (pfx ++ "/" ++ nm) cs).1,
       (zipWalkList inc (pfx ++ "/" ++ nm) cs).2) := by
  rw [zipWalkEntry.eq_def]

@[simp] theorem zipWalkEntry_file_ok (inc : Bool) (pfx nm : String) (sz : Nat) :
    zipWalkEntry inc pfx (FSEntry.file nm sz FileMode.ok) =
      ([pfx ++ "/" ++ nm], Except.ok (1, sz)) := by
  rw [zipWalkEntry.eq_def]

@[simp] theorem zipWalkEntry_file_perm (inc : Bool) (pfx nm : String)
    (sz : Nat) :
    zipWalkEntry inc pfx (FSEntry.file nm sz FileMode.openPermDenied) =
      ([pfx ++ "/" ++ nm], Except.ok (0, 0)) := by
  rw [zipWalkEntry.eq_def]

@[simp] theorem zipWalkEntry_file_openErr (inc : Bool) (pfx nm : String)
    (sz : Nat) :
    zipWalkEntry inc pfx (FSEntry.file nm sz FileMode.openOtherErr) =
      ([pfx ++ "/" ++ nm],
        Except.error (WalkAbort.openFailed (pfx ++ "/" ++ nm))) := by
  rw [zipWalkEntry.eq_def]

@[simp] theorem zipWalkEntry_file_copyErr (inc : Bool) (pfx nm : String)
    (sz : Nat) :
    zipWalkEntry inc pfx (FSEntry.file nm sz FileMode.copyErr) =
      ([pfx ++ "/" ++ nm],
        Except.error (WalkAbort.copyFailed (pfx ++ "/" ++ nm))) := by
  rw [zipWalkEntry.eq_def]

@[simp] theorem zipWalkList_nil (inc : Bool) (pfx : String) :
    zipWalkList inc pfx FSList.nil = ([], Except.ok (0, 0)) := by
  rw [zipWalkList.eq_def]

theorem zipWalkList_cons_hidden (inc : Bool) (pfx : String) (e : FSEntry)
    (r : FSList) (h : (!inc && isHidden (entryName e)) = true) :
    zipWalkList inc pfx (FSList.cons e r) = zipWalkList inc pfx r := by
  rw [zipWalkList.eq_def]
  simp [h]

theorem zipWalkList_cons_vis_err (inc : Bool) (pfx : String) (e : FSEntry)
    (r : FSList) (es : List String) (a : WalkAbort)
    (h : (!inc && isHidden (entryName e)) = false)
    (hE : zipWalkEntry inc pfx e = (es, Except.error a)) :
    zipWalkList inc pfx (FSList.cons e r) = (es, Except.error a) := by
  rw [zipWalkList.eq_def]
  simp [h, hE]

theorem zipWalkList_cons_vis_ok_err (inc : Bool) (pfx : String) (e : FSEntry)
    (r : FSList) (es es2 : List String) (pc : Nat × Nat) (a : WalkAbort)
    (h : (!inc && isHidden (entryName e)) = false)
    (hE : zipWalkEntry inc pfx e = (es, Except.ok pc))
    (hR : zipWalkList inc pfx r = (es2, Except.error a)) :
    zipWalkList inc pfx (FSList.cons e r) = (es ++ es2, Except.error a) := by
  rw [zipWalkList.eq_def]
  simp [h, hE, hR]

theorem zipWalkList_cons_vis_ok_ok (inc : Bool) (pfx : String) (e : FSEntry)
    (r : FSList) (es es2 : List String) (pc pc2 : Nat × Nat)
    (h : (!inc && isHidden (entryName e)) = false)
    (hE : zipWalkEntry inc pfx e = (es, Except.ok pc))
    (hR : zipWalkList inc pfx r = (es2, Except.ok pc2)) :
    zipWalkList inc pfx (FSList.cons e r) =
      (es ++ es2, Except.ok (pc.1 + pc2.1, pc.2 + pc2.2)) := by
  rw [zipWalkList.eq_def]
  simp [h, hE, hR]

@[simp] theorem eligDirsE_file (inc : Bool) (n : String) (sz : Nat)
    (m : FileMode) : eligDirsE inc (FSEntry.file n sz m) = 0 := by
  rw [eligDirsE.eq_def]

@[simp] theorem eligDirsE_dir (inc : Bool) (n : String) (cs : FSList) :
    eligDirsE inc (FSEntry.dir n cs) = 1 + eligDirsL inc cs := by
  rw [eligDirsE.eq_def]

@[simp] theorem eligDirsL_nil (inc : Bool) : eligDirsL inc FSList.nil = 0 := by
  rw [eligDirsL.eq_def]

theorem eligDirsL_cons_hidden (inc : Bool) (e : FSEntry) (r : FSList)
    (h : (!inc && isHidden (entryName e)) = true) :
    eligDirsL inc (FSList.cons e r) = eligDirsL inc r := by
  rw [eligDirsL.eq_def]
  simp [h]

theorem eligDirsL_cons_vis (inc : Bool) (e : FSEntry) (r : FSList)
    (h : (!inc && isHidden (entryName e)) = false) :
    eligDirsL inc (FSList.cons e r) = eligDirsE inc e + eligDirsL inc r := by
  rw [eligDirsL.eq_def]
  simp [h]

@[simp] theorem okStatsE_file (inc : Bool) (n : String) (sz : Nat)
    (m : FileMode) : okStatsE inc (FSEntry.file n sz m) =
      if m = FileMode.ok then (1, sz) else (0, 0) := by
  rw [okStatsE.eq_def]

@[simp] theorem okStatsE_dir (inc : Bool) (n : String) (cs : FSList) :
    okStatsE inc (FSEntry.dir n cs) = okStatsL inc cs := by
  rw [okStatsE.eq_def]

@[simp] theorem okStatsL_nil (inc : Bool) : okStatsL inc FSList.nil = (0, 0) := by
  rw [okStatsL.eq_def]

theorem okStatsL_cons_hidden (inc : Bool) (e : FSEntry) (r : FSList)
    (h : (!inc && isHidden (entryName e)) = true) :
    okStatsL inc (FSList.cons e r) = okStatsL inc r := by
  rw [okStatsL.eq_def]
  simp [h]

theorem okStatsL_cons_vis (inc : Bool) (e : FSEntry) (r : FSList)
    (h : (!inc && isHidden (entryName e)) = false) :
    okStatsL inc (FSList.cons e r) =
      ((okStatsE inc e).1 + (okStatsL inc r).1,
       (okStatsE inc e).2 + (okStatsL inc r).2) := by
  rw [okStatsL.eq_def]
  simp [h]

@[simp] theorem noAbortE_file (inc : Bool) (n : String) (sz : Nat)
    (m : FileMode) : noAbortE inc (FSEntry.file n sz m) = !m.aborts := by
  rw [noAbortE.eq_def]

@[simp] theorem noAbortE_dir (inc : Bool) (n : String) (cs : FSList) :
    noAbortE inc (FSEntry.dir n cs) = noAbortL inc cs := by
  rw [noAbortE.eq_def]

@[simp] theorem noAbortL_nil (inc : Bool) : noAbortL inc FSList.nil = true := by
  rw [noAbortL.eq_def]

theorem noAbortL_cons (inc : Bool) (e : FSEntry) (r : FSList) :
    noAbortL inc (FSList.cons e r) =
      ((if !inc && isHidden (entryName e) then true else noAbortE inc e) &&
        noAbortL inc r) := by
  rw [noAbortL.eq_def]

@[simp] theorem wfE_file (n : String) (sz : Nat) (m : FileMode) :
    wfE (FSEntry.file n sz m) = goodName n := by
  rw [wfE.eq_def]

@[simp] theorem wfE_dir (n : String) (cs : FSList) :
    wfE (FSEntry.dir n cs) = (goodName n && wfL cs) := by
  rw [wfE.eq_def]

@[simp] theorem wfL_nil : wfL FSList.nil = true := by
  rw [wfL.eq_def]

@[simp] theorem wfL_cons (e : FSEntry) (r : FSList) :
    wfL (FSList.cons e r) = (wfE e && wfL r) := by
  rw [wfL.eq_def]

@[simp] theorem walkDirsE_file (depth : Int) (pfx : String) (cd : Nat)
    (n : String) (sz : Nat) (m : FileMode) :
    walkDirsE depth pfx cd (FSEntry.file n sz m) = [] := by
  rw [walkDirsE.eq_def]

theorem walkDirsE_dir (depth : Int) (pfx : String) (cd : Nat) (n : String)
    (cs : FSList) :
    walkDirsE depth pfx cd (FSEntry.dir n cs) =
      if depth > 0 ∧ (cd : Int) > depth then []
      else
        (if depth < 0 ∨ (cd : Int) ≤ depth then [pfx ++ "/" ++ n] else []) ++
          walkDirsL depth (pfx ++ "/" ++ n) (cd + 1) cs := by
  rw [walkDirsE.eq_def]

@[simp] theorem walkDirsL_nil (depth : Int) (pfx : String) (cd : Nat) :
    walkDirsL depth pfx cd FSList.nil = [] := by
  rw [walkDirsL.eq_def]

@[simp] theorem walkDirsL_cons (depth : Int) (pfx : String) (cd : Nat)
    (e : FSEntry) (r : FSList) :
    walkDirsL depth pfx cd (FSList.cons e r) =
      walkDirsE depth pfx cd e ++ walkDirsL depth pfx cd r := by
  rw [walkDirsL.eq_def]

@[simp] theorem allDirsE_file (pfx : String) (n : String) (sz : Nat)
    (m : FileMode) : allDirsE pfx (FSEntry.file n sz m) = [] := by
  rw [allDirsE.eq_def]

@[simp] theorem allDirsE_dir (pfx : String) (n : String) (cs : FSList) :
    allDirsE pfx (FSEntry.dir n cs) =
      (pfx ++ "/" ++ n) :: allDirsL (pfx ++ "/" ++ n) cs := by
  rw [allDirsE.eq_def]

@[simp] theorem allDirsL_nil (pfx : String) : allDirsL pfx FSList.nil = [] := by
  rw [allDirsL.eq_def]

@[simp] theorem allDirsL_cons (pfx : String) (e : FSEntry) (r : FSList) :
    allDirsL pfx (FSList.cons e r) = allDirsE pfx e ++ allDirsL pfx r := by
  rw [allDirsL.eq_def]

@[simp] theorem dirsUpToE_file (pfx : String) (b : Nat) (n : String)
    (sz : Nat) (m : FileMode) :
    dirsUpToE pfx b (FSEntry.file n sz m) = [] := by
  rw [dirsUpToE.eq_def]

@[simp] theorem dirsUpToE_dir_zero (pfx : String) (n : String) (cs : FSList) :
    dirsUpToE pfx 0 (FSEntry.dir n cs) = [] := by
  rw [dirsUpToE.eq_def]

@[simp] theorem dirsUpToE_dir_succ (pfx : String) (b : Nat) (n : String)
    (cs : FSList) :
    dirsUpToE pfx (b + 1) (FSEntry.dir n cs) =
      (pfx ++ "/" ++ n) :: dirsUpToL (pfx ++ "/" ++ n) b cs := by
  rw [dirsUpToE.eq_def]

@[simp] theorem dirsUpToL_nil (pfx : String) (b : Nat) :
    dirsUpToL pfx b FSList.nil = [] := by
  rw [dirsUpToL.eq_def]

@[simp] theorem dirsUpToL_cons (pfx : String) (b : Nat) (e : FSEntry)
    (r : FSList) :
    dirsUpToL pfx b (FSList.cons e r) =
      dirsUpToE pfx b e ++ dirsUpToL pfx b r := by
  rw [dirsUpToL.eq_def]

/-! ## Supporting lemmas about the queue run loop -/

/-- The run loop itself never emits the queue-completion event; it is
emitted only by the single call site after the loop in `Execute`. -/
theorem runLoop_trace_no_queueComplete (items : List QueueItemM) :
    ∀ (idx : Nat) (sched : List QueueStatus),
      (runLoop idx items sched).2.1.countP QEvent.isQueueComplete = 0 := by
  induction items with
  | nil => intro idx sched; simp [runLoop]
  | cons it rest ih =>
    intro idx sched
    simp only [runLoop]
    split
    · simp
    · split
      · simp [List.countP_cons, QEvent.isQueueComplete, ih]
      · simp

/-- The run loop exits by natural completion, the break, or the early
return — never with the CAS-rejection marker. -/
theorem runLoop_exit_ne_rejected (items : List QueueItemM) :
    ∀ (idx : Nat) (sched : List QueueStatus),
      (runLoop idx items sched).2.2 ≠ ExitKind.rejected := by
  induction items with
  | nil => intro idx sched; simp [runLoop]
  | cons it rest ih =>
    intro idx sched
    simp only [runLoop]
    split
    · simp
    · split
      · simpa using ih (idx + 1) _
      · simp

/-- On the schedule `stopAfterSched k`, the loop runs exactly the first
`k` items in order and then breaks at the stop check. -/
theorem runLoop_stopAfter (k : Nat) :
    ∀ (idx : Nat) (items : List QueueItemM), k < items.length →
      runLoop idx items (stopAfterSched k) =
        ((items.take k).map runItem ++ items.drop k, expectedTrace idx k,
          ExitKind.stopBreak) := by
  induction k with
  | zero =>
    intro idx items h
    cases items with
    | nil => simp at h
    | cons it rest =>
      simp [stopAfterSched, runLoop, readStatus, expectedTrace]
  | succ k ih =>
    intro idx items h
    cases items with
    | nil => simp at h
    | cons it rest =>
      have hs : stopAfterSched (k + 1) =
          QueueStatus.Running :: QueueStatus.Running :: stopAfterSched k := by
        simp [stopAfterSched, Nat.mul_succ, List.replicate_succ]
      have hk : k < rest.length := by simpa using h
      rw [hs]
      have hpp : pausePoll (QueueStatus.Running :: stopAfterSched k) =
          (true, stopAfterSched k) := by simp [pausePoll.eq_def]
      simp [runLoop, readStatus, hpp, ih (idx + 1) rest hk, expectedTrace,
        List.map_take]

/-! ## Supporting lemmas about the archive-writing walk -/

/-! When no eligible file aborts, the walk completes and reports exactly
the count and bytes of the files it actually copied (permission-skipped
files contribute nothing). -/
mutual
theorem zipWalk_ok_of_noAbortE (inc : Bool) :
    ∀ (e : FSEntry) (pfx : String), noAbortE inc e = true →
      (zipWalkEntry inc pfx e).2 = Except.ok (okStatsE inc e)
  | FSEntry.file nm sz m, pfx => by
    intro h
    cases m <;> simp_all [FileMode.aborts]
  | FSEntry.dir nm cs, pfx => by
    intro h
    have ih := zipWalk_ok_of_noAbortL inc cs (pfx ++ "/" ++ nm)
      (by simpa using h)
    simp [ih]
theorem zipWalk_ok_of_noAbortL (inc : Bool) :
    ∀ (l : FSList) (pfx : String), noAbortL inc l = true →
      (zipWalkList inc pfx l).2 = Except.ok (okStatsL inc l)
  | FSList.nil, _ => by intro _; simp
  | FSList.cons e r, pfx => by
    intro h
    rw [noAbortL_cons, Bool.and_eq_true] at h
    have ihr := zipWalk_ok_of_noAbortL inc r pfx h.2
    by_cases hh : (!inc && isHidden (entryName e)) = true
    · rw [zipWalkList_cons_hidden inc pfx e r hh,
        okStatsL_cons_hidden inc e r hh]
      exact ihr
    · have hh' : (!inc && isHidden (entryName e)) = false := by
        simpa using hh
      have he : noAbortE inc e = true := by
        rw [hh'] at h
        simpa using h.1
      have ihe := zipWalk_ok_of_noAbortE inc e pfx he
      rcases hE : zipWalkEntry inc pfx e with ⟨es1, r1⟩
      rcases hR : zipWalkList inc pfx r with ⟨es2, r2⟩
      rw [hE] at ihe
      rw [hR] at ihr
      have ihe' : r1 = Except.ok (okStatsE inc e) := ihe
      have ihr' : r2 = Except.ok (okStatsL inc r) := ihr
      have hE2 : zipWalkEntry inc pfx e = (es1, Except.ok (okStatsE inc e)) := by
        rw [hE, ihe']
      have hR2 : zipWalkList inc pfx r = (es2, Except.ok (okStatsL inc r)) := by
        rw [hR, ihr']
      rw [zipWalkList_cons_vis_ok_ok inc pfx e r es1 es2 _ _ hh' hE2 hR2,
        okStatsL_cons_vis inc e r hh']
end

/-- A directory marker entry ends in `/`. -/
theorem endsWithSlash_marker (s : String) : endsWithSlash (s ++ "/") = true := by
  have hd : ("/" : String).data = ['/'] := rfl
  simp [endsWithSlash, String.data_append, hd, List.getLast?_concat]

/-- A file entry `pfx ++ "/" ++ nm` with a wellformed last component does
not end in `/`. -/
theorem endsWithSlash_entry (pfx nm : String) (hn : goodName nm = true) :
    endsWithSlash (pfx ++ "/" ++ nm) = false := by
  rw [goodName, Bool.and_eq_true] at hn
  obtain ⟨hne, hnc⟩ := hn
  have hne' : nm.data ≠ [] := by
    simpa using hne
  have hnc' : '/' ∉ nm.data := by
    simpa using hnc
  rcases hg : nm.data.getLast? with _ | c
  · exact absurd (List.getLast?_eq_none_iff.mp hg) hne'
  · have hmem := List.mem_of_getLast?_eq_some hg
    have hc : c ≠ '/' := fun hcc => hnc' (hcc ▸ hmem)
    have hdata : (pfx ++ "/" ++ nm).data = (pfx.data ++ ['/']) ++ nm.data := by
      simp [String.data_append]
    have hlast : (pfx ++ "/" ++ nm).data.getLast? = some c := by
      rw [hdata, List.getLast?_append, hg, Option.or_some]
    have hunf : endsWithSlash (pfx ++ "/" ++ nm) =
        ((pfx ++ "/" ++ nm).data.getLast? == some '/') := rfl
    rw [hunf, hlast]
    simpa using hc

/-! When the write walk completes, the entry list it wrote holds one
marker entry (ending in `/`) per visited directory and one non-marker
entry per eligible file — permission-skipped files included, since
`CreateHeader` runs before `os.Open`. -/
mutual
theorem zipWalk_counts_E (inc : Bool) :
    ∀ (e : FSEntry) (pfx : String), wfE e = true →
      ∀ (es : List String) (pc : Nat × Nat),
        zipWalkEntry inc pfx e = (es, Except.ok pc) →
        es.countP endsWithSlash = eligDirsE inc e ∧
        es.countP (fun s => !endsWithSlash s) = (countWalkE inc e).1 ∧
        es.length = eligDirsE inc e + (countWalkE inc e).1
  | FSEntry.file nm sz m, pfx => by
    intro hwf es pc hW
    have hslash := endsWithSlash_entry pfx nm (by simpa using hwf)
    cases m with
    | ok =>
      rw [zipWalkEntry_file_ok] at hW
      simp only [Prod.mk.injEq, Except.ok.injEq] at hW
      obtain ⟨hes, _⟩ := hW
      subst hes
      simp [List.countP_cons, hslash]
    | openPermDenied =>
      rw [zipWalkEntry_file_perm] at hW
      simp only [Prod.mk.injEq, Except.ok.injEq] at hW
      obtain ⟨hes, _⟩ := hW
      subst hes
      simp [List.countP_cons, hslash]
    | openOtherErr =>
      rw [zipWalkEntry_file_openErr] at hW
      simp at hW
    | copyErr =>
      rw [zipWalkEntry_file_copyErr] at hW
      simp at hW
  | FSEntry.dir nm cs, pfx => by
    intro hwf es pc hW
    rw [zipWalkEntry_dir] at hW
    rcases hL : zipWalkList inc (pfx ++ "/" ++ nm) cs with ⟨es2, r2⟩
    rw [hL] at hW
    simp only [Prod.mk.injEq] at hW
    obtain ⟨hes, hr2⟩ := hW
    have hwl : wfL cs = true := by
      rw [wfE_dir, Bool.and_eq_true] at hwf
      exact hwf.2
    have ih := zipWalk_counts_L inc cs (pfx ++ "/" ++ nm) hwl es2 pc
      (by rw [hL, hr2])
    subst hes
    have h1 := ih.1
    have h2 := ih.2.1
    have h3 := ih.2.2
    refine ⟨?_, ?_, ?_⟩
    · simp [List.countP_cons, endsWithSlash_marker, h1]
      omega
    · simp [List.countP_cons, endsWithSlash_marker, h2]
    · simp only [List.length_cons, eligDirsE_dir, countWalkE_dir]
      omega
theorem zipWalk_counts_L (inc : Bool) :
    ∀ (l : FSList) (pfx : String), wfL l = true →
      ∀ (es : List String) (pc : Nat × Nat),
        zipWalkList inc pfx l = (es, Except.ok pc) →
        es.countP endsWithSlash = eligDirsL inc l ∧
        es.countP (fun s => !endsWithSlash s) = (countWalkL inc l).1 ∧
        es.length = eligDirsL inc l + (countWalkL inc l).1
  | FSList.nil, pfx => by
    intro _ es pc hW
    simp only [zipWalkList_nil, Prod.mk.injEq] at hW
    obtain ⟨hes, _⟩ := hW
    subst hes
    simp
  | FSList.cons e r, pfx => by
    intro hwf es pc hW
    rw [wfL_cons, Bool.and_eq_true] at hwf
    obtain ⟨hwe, hwr⟩ := hwf
    by_cases hh : (!inc && isHidden (entryName e)) = true
    · rw [zipWalkList_cons_hidden inc pfx e r hh] at hW
      have ih := zipWalk_counts_L inc r pfx hwr es pc hW
      rw [eligDirsL_cons_hidden inc e r hh, countWalkL_cons_hidden inc e r hh]
      exact ih
    · have hh' : (!inc && isHidden (entryName e)) = false := by simpa using hh
      rcases hE : zipWalkEntry inc pfx e with ⟨es1, r1⟩
      rcases hR : zipWalkList inc pfx r with ⟨es2, r2⟩
      cases r1 with
      | error a =>
        rw [zipWalkList_cons_vis_err inc pfx e r es1 a hh' hE] at hW
        simp at hW
      | ok pc1 =>
        cases r2 with
        | error a2 =>
          rw [zipWalkList_cons_vis_ok_err inc pfx e r es1 es2 pc1 a2 hh' hE hR]
            at hW
          simp at hW
        | ok pc2 =>
          rw [zipWalkList_cons_vis_ok_ok inc pfx e r es1 es2 pc1 pc2 hh' hE hR]
            at hW
          simp only [Prod.mk.injEq] at hW
          obtain ⟨hes, _⟩ := hW
          have ihe := zipWalk_counts_E inc e pfx hwe es1 pc1 hE
          have ihr := zipWalk_counts_L inc r pfx hwr es2 pc2 hR
          subst hes
          rw [eligDirsL_cons_vis inc e r hh', countWalkL_cons_vis inc e r hh']
          refine ⟨?_, ?_, ?_⟩
          · simp only [List.countP_append, ihe.1, ihr.1]
          · simp only [List.countP_append, ihe.2.1, ihr.2.1]
          · have h1 := ihe.2.2
            have h2 := ihr.2.2
            simp only [List.length_append]
            omega
end

/-- Inversion of a successful `Execute` on a directory source: the
pre-scan found files, `os.Create` succeeded, the walk completed, and the
output is exactly the success record built from the pre-scan totals and
the walk's entry list. -/
theorem taskExecute_success_inv (inc : Bool) (rn : String) (cs : FSList)
    (fs : Option Nat) (cf : Option Bool)
    (hs : (taskExecute inc (Except.ok (FSEntry.dir rn cs)) fs cf).result.success
        = true) :
    (ctCountFiles inc rn cs).1 ≠ 0 ∧
    ∃ es pc, zipWalkRoot inc rn cs = (es, Except.ok pc) ∧
      taskExecute inc (Except.ok (FSEntry.dir rn cs)) fs cf =
        { result := { success := true,
                      totalFiles := (ctCountFiles inc rn cs).1,
                      totalSize := (ctCountFiles inc rn cs).2,
                      compressedSize := pc.2 },
          archiveCreated := true, entries := es } := by
  by_cases h0 : (ctCountFiles inc rn cs).1 = 0
  · exact absurd hs (by simp [taskExecute, h0])
  refine ⟨h0, ?_⟩
  rcases hd : checkDiskSpace fs (ctCountFiles inc rn cs).2 with _ | b
  · rcases cf with _ | b2
    · rcases hW : zipWalkRoot inc rn cs with ⟨es, r⟩
      cases r with
      | error a => exact absurd hs (by simp [taskExecute, h0, hd, hW])
      | ok pc => exact ⟨es, pc, rfl, by simp [taskExecute, h0, hd, hW]⟩
    · cases b2 <;> exact absurd hs (by simp [taskExecute, h0, hd])
  · exact absurd hs (by simp [taskExecute, h0, hd])

/-- A non-zero eligible-file count implies the root itself was not pruned
as hidden. -/
theorem root_not_hidden_of_count_ne (inc : Bool) (rn : String) (cs : FSList)
    (h : (ctCountFiles inc rn cs).1 ≠ 0) :
    (!inc && isHidden rn) = false := by
  cases hcc : (!inc && isHidden rn) with
  | false => rfl
  | true => exact absurd (by simp [ctCountFiles, hcc]) h

theorem ctCountFiles_vis (inc : Bool) (rn : String) (cs : FSList)
    (h : (!inc && isHidden rn) = false) :
    ctCountFiles inc rn cs = countWalkL inc cs := by
  simp [ctCountFiles, h]

theorem zipWalkRoot_ok_of_noAbort (inc : Bool) (rn : String) (cs : FSList)
    (h : noAbortL inc cs = true) (hr : (!inc && isHidden rn) = false) :
    (zipWalkRoot inc rn cs).2 = Except.ok (okStatsL inc cs) := by
  rw [zipWalkRoot]
  simp [hr, zipWalk_ok_of_noAbortL inc cs rn h]

/-! ## Supporting lemmas about `GetSubDirectories` -/

theorem dirsUpToE_zero (e : FSEntry) (pfx : String) :
    dirsUpToE pfx 0 e = [] := by
  cases e <;> simp

theorem dirsUpToL_zero : ∀ (l : FSList) (pfx : String),
    dirsUpToL pfx 0 l = []
  | FSList.nil, pfx => by simp
  | FSList.cons e r, pfx => by
    simp [dirsUpToE_zero, dirsUpToL_zero r pfx]

@[simp] theorem readDirImmediate_nil (pp : String) :
    readDirImmediate pp FSList.nil = [] := by
  rw [readDirImmediate.eq_def]

@[simp] theorem readDirImmediate_cons_dir (pp : String) (n : String)
    (cs : FSList) (r : FSList) :
    readDirImmediate pp (FSList.cons (FSEntry.dir n cs) r) =
      (pp ++ "/" ++ n) :: readDirImmediate pp r := by
  rw [readDirImmediate.eq_def]

@[simp] theorem readDirImmediate_cons_file (pp : String) (n : String)
    (sz : Nat) (m : FileMode) (r : FSList) :
    readDirImmediate pp (FSList.cons (FSEntry.file n sz m) r) =
      readDirImmediate pp r := by
  rw [readDirImmediate.eq_def]

/-- Budget 1 collects exactly the immediate child directories. -/
theorem dirsUpToL_one_eq_readDir : ∀ (l : FSList) (pp : String),
    dirsUpToL pp 1 l = readDirImmediate pp l
  | FSList.nil, pp => by simp
  | FSList.cons e r, pp => by
    cases e with
    | file n sz m => simp [dirsUpToL_one_eq_readDir r pp]
    | dir n cs => simp [dirsUpToL_one_eq_readDir r pp, dirsUpToL_zero]

/-! With a negative depth the walk nowhere prunes and collects every
nested directory. -/
mutual
theorem walkDirsE_neg (d : Int) (hd : d < 0) :
    ∀ (e : FSEntry) (pfx : String) (cd : Nat),
      walkDirsE d pfx cd e = allDirsE pfx e
  | FSEntry.file n sz m, pfx, cd => by simp
  | FSEntry.dir n cs, pfx, cd => by
    rw [walkDirsE_dir]
    rw [if_neg (by omega)]
    rw [if_pos (Or.inl hd)]
    simp [walkDirsL_neg d hd cs (pfx ++ "/" ++ n) (cd + 1)]
theorem walkDirsL_neg (d : Int) (hd : d < 0) :
    ∀ (l : FSList) (pfx : String) (cd : Nat),
      walkDirsL d pfx cd l = allDirsL pfx l
  | FSList.nil, pfx, cd => by simp
  | FSList.cons e r, pfx, cd => by
    simp [walkDirsE_neg d hd e pfx cd, walkDirsL_neg d hd r pfx cd]
end

/-! With depth `d > 1` the walk collects directories with a remaining
level budget of `d + 1 - cd` and prunes at `cd = d + 1`. -/
mutual
theorem walkDirsE_pos (d : Int) (hd : 1 < d) :
    ∀ (e : FSEntry) (pfx : String) (cd : Nat), 1 ≤ cd → (cd : Int) ≤ d + 1 →
      walkDirsE d pfx cd e = dirsUpToE pfx (d + 1 - (cd : Int)).toNat e
  | FSEntry.file n sz m, pfx, cd => by
    intro h1 h2
    simp
  | FSEntry.dir n cs, pfx, cd => by
    intro h1 h2
    rw [walkDirsE_dir]
    by_cases hcd : (cd : Int) > d
    · rw [if_pos ⟨by omega, hcd⟩]
      have hb : (d + 1 - (cd : Int)).toNat = 0 := by omega
      rw [hb, dirsUpToE_dir_zero]
    · rw [if_neg (by omega)]
      rw [if_pos (Or.inr (by omega))]
      have hb : (d + 1 - (cd : Int)).toNat =
          (d + 1 - ((cd + 1 : Nat) : Int)).toNat + 1 := by
        push_cast
        omega
      rw [hb, dirsUpToE_dir_succ]
      rw [walkDirsL_pos d hd cs (pfx ++ "/" ++ n) (cd + 1) (by omega)
        (by push_cast; omega)]
      simp
theorem walkDirsL_pos (d : Int) (hd : 1 < d) :
    ∀ (l : FSList) (pfx : String) (cd : Nat), 1 ≤ cd → (cd : Int) ≤ d + 1 →
      walkDirsL d pfx cd l = dirsUpToL pfx (d + 1 - (cd : Int)).toNat l
  | FSList.nil, pfx, cd => by
    intro h1 h2
    simp
  | FSList.cons e r, pfx, cd => by
    intro h1 h2
    simp [walkDirsE_pos d hd e pfx cd h1 h2, walkDirsL_pos d hd r pfx cd h1 h2]
end

/-! ## Claim theorems: the queue -/

/-- C1 (counterexample): a one-item queue whose very first stop check
observes `Stopped`.  The run is ended early by `Stop()` — the loop breaks
before any item runs, the item still reads `pending` — yet the
queue-completion hook fires (the `break` falls through to the
`OnQueueComplete` call), contradicting the claim that it does not fire on
an early stop. -/
theorem c1_counterexample :
    (queueExecute QueueStatus.Idle [{ taskSuccess := true }]
        [QueueStatus.Stopped]).bexit = ExitKind.stopBreak ∧
    (queueExecute QueueStatus.Idle [{ taskSuccess := true }]
        [QueueStatus.Stopped]).trace.countP QEvent.isQueueComplete = 1 ∧
    (queueExecute QueueStatus.Idle [{ taskSuccess := true }]
        [QueueStatus.Stopped]).items = [{ taskSuccess := true }] := by
  decide

/-- C1 (amended): in every run of `CompressQueue.Execute`, the
queue-completion hook fires exactly once when the run loop exits by
natural completion *or* by the stop check at an item boundary (the
`break` falls through to the hook), and does not fire when the stop is
observed inside the pause wait (early `return`) or when the initial
compare-and-swap rejects the call. -/
theorem c1_queueComplete_exactly_on_loop_end (s0 : QueueStatus)
    (items : List QueueItemM) (sched : List QueueStatus) :
    (queueExecute s0 items sched).trace.countP QEvent.isQueueComplete =
      (if (queueExecute s0 items sched).bexit = ExitKind.natural ∨
          (queueExecute s0 items sched).bexit = ExitKind.stopBreak
       then 1 else 0) := by
  by_cases h : s0 = QueueStatus.Idle
  · subst h
    unfold queueExecute
    simp only [if_pos rfl]
    by_cases hp : (runLoop 0 items sched).2.2 = ExitKind.pauseStopReturn
    · simp [hp, runLoop_trace_no_queueComplete]
    · have hnr := runLoop_exit_ne_rejected items 0 sched
      simp only [hp, if_neg, ite_false]
      cases hx : (runLoop 0 items sched).2.2 <;>
        simp_all [runLoop_trace_no_queueComplete, QEvent.isQueueComplete]
  · simp [queueExecute, h]

/-- C3: on a queue of pending items with `Stop()` taking effect after
item `k` completes (`k < n`): the first `k` items are run one at a time
in insertion order (the callback trace interleaves start/complete for
indices `0..k-1` in order), they end in a terminal status, and items
`k+1..n` keep status `"pending"`; `GetResults()` (the items list) shows
exactly `k` items with a terminal status. -/
theorem c3_stop_after_k (items : List QueueItemM) (k : Nat)
    (hk : k < items.length)
    (hp : ∀ it ∈ items, it.status = ItemStatus.pending) :
    (queueExecute QueueStatus.Idle items (stopAfterSched k)).items =
        (items.take k).map runItem ++ items.drop k ∧
    (queueExecute QueueStatus.Idle items (stopAfterSched k)).items.countP
        (fun it => it.status.isTerminal) = k ∧
    (∀ it ∈ ((queueExecute QueueStatus.Idle items
        (stopAfterSched k)).items.drop k), it.status = ItemStatus.pending) ∧
    (queueExecute QueueStatus.Idle items (stopAfterSched k)).trace =
        expectedTrace 0 k ++ [QEvent.queueComplete] := by
  have hrun := runLoop_stopAfter k 0 items hk
  have hitems : (queueExecute QueueStatus.Idle items (stopAfterSched k)).items =
      (items.take k).map runItem ++ items.drop k := by
    simp [queueExecute, hrun]
  have hlen : ((items.take k).map runItem).length = k := by
    simp [List.length_map, List.length_take, Nat.min_eq_left hk.le]
  refine ⟨hitems, ?_, ?_, ?_⟩
  · rw [hitems, List.countP_append]
    have h1 : ((items.take k).map runItem).countP
        (fun it => it.status.isTerminal) = ((items.take k).map runItem).length := by
      rw [List.countP_eq_length]
      intro a ha
      rcases List.mem_map.mp ha with ⟨b, _, rfl⟩
      by_cases hb : b.taskSuccess <;> simp [runItem, hb, ItemStatus.isTerminal]
    have h2 : (items.drop k).countP (fun it => it.status.isTerminal) = 0 := by
      rw [List.countP_eq_zero]
      intro a ha
      have := hp a (List.drop_subset k items ha)
      simp [this, ItemStatus.isTerminal]
    rw [h1, h2, hlen]
    omega
  · intro it hit
    rw [hitems, List.drop_left' hlen] at hit
    exact hp it (List.drop_subset k items hit)
  · simp [queueExecute, hrun]

/-- C3 (witness): the spec's scenario at size 5 — five pending items,
stop taking effect after item 2. -/
theorem c3_stop_after_k_witness :
    (queueExecute QueueStatus.Idle
        [{ taskSuccess := true }, { taskSuccess := false },
         { taskSuccess := true }, { taskSuccess := true },
         { taskSuccess := true }] (stopAfterSched 2)).items =
        (([{ taskSuccess := true }, { taskSuccess := false },
          { taskSuccess := true }, { taskSuccess := true },
          { taskSuccess := true }] : List QueueItemM).take 2).map runItem ++
        ([{ taskSuccess := true }, { taskSuccess := false },
          { taskSuccess := true }, { taskSuccess := true },
          { taskSuccess := true }] : List QueueItemM).drop 2 ∧
    (queueExecute QueueStatus.Idle
        [{ taskSuccess := true }, { taskSuccess := false },
         { taskSuccess := true }, { taskSuccess := true },
         { taskSuccess := true }] (stopAfterSched 2)).items.countP
        (fun it => it.status.isTerminal) = 2 ∧
    (∀ it ∈ ((queueExecute QueueStatus.Idle
        [{ taskSuccess := true }, { taskSuccess := false },
         { taskSuccess := true }, { taskSuccess := true },
         { taskSuccess := true }] (stopAfterSched 2)).items.drop 2),
        it.status = ItemStatus.pending) ∧
    (queueExecute QueueStatus.Idle
        [{ taskSuccess := true }, { taskSuccess := false },
         { taskSuccess := true }, { taskSuccess := true },
         { taskSuccess := true }] (stopAfterSched 2)).trace =
        expectedTrace 0 2 ++ [QEvent.queueComplete] :=
  c3_stop_after_k
    [{ taskSuccess := true }, { taskSuccess := false },
     { taskSuccess := true }, { taskSuccess := true },
     { taskSuccess := true }] 2 (by decide) (by decide)

/-- C4: `Execute` proceeds only from `Idle`; a call finding any other
status returns at once, leaving items, trace, and status untouched; every
run that does start leaves through one of the three loop exits and the
deferred store returns the status word to `Idle`, so the queue is
restartable. -/
theorem c4_idle_guard_and_restore (s0 s1 : QueueStatus)
    (items items2 : List QueueItemM) (sched sched2 : List QueueStatus)
    (h0 : s0 = QueueStatus.Idle) (h1 : s1 ≠ QueueStatus.Idle) :
    ((queueExecute s0 items sched).finalStatus = QueueStatus.Idle ∧
      ((queueExecute s0 items sched).bexit = ExitKind.natural ∨
       (queueExecute s0 items sched).bexit = ExitKind.stopBreak ∨
       (queueExecute s0 items sched).bexit = ExitKind.pauseStopReturn)) ∧
    queueExecute s1 items2 sched2 =
      { items := items2, trace := [], bexit := ExitKind.rejected,
        finalStatus := s1 } := by
  subst h0
  constructor
  · unfold queueExecute
    simp only [if_pos rfl]
    have hnr := runLoop_exit_ne_rejected items 0 sched
    by_cases hp : (runLoop 0 items sched).2.2 = ExitKind.pauseStopReturn
    · simp [hp]
    · cases hx : (runLoop 0 items sched).2.2 <;> simp_all
  · simp [queueExecute, h1]

/-- C4 (witness): an idle queue runs to natural completion and returns to
`Idle`; a concurrent second call finding `Running` is rejected
untouched. -/
theorem c4_idle_guard_and_restore_witness :
    ((queueExecute QueueStatus.Idle [{ taskSuccess := true }] []).finalStatus
        = QueueStatus.Idle ∧
      ((queueExecute QueueStatus.Idle [{ taskSuccess := true }] []).bexit
          = ExitKind.natural ∨
       (queueExecute QueueStatus.Idle [{ taskSuccess := true }] []).bexit
          = ExitKind.stopBreak ∨
       (queueExecute QueueStatus.Idle [{ taskSuccess := true }] []).bexit
          = ExitKind.pauseStopReturn)) ∧
    queueExecute QueueStatus.Running [{ taskSuccess := true }] [] =
      { items := [{ taskSuccess := true }], trace := [],
        bexit := ExitKind.rejected, finalStatus := QueueStatus.Running } :=
  c4_idle_guard_and_restore QueueStatus.Idle QueueStatus.Running
    [{ taskSuccess := true }] [{ taskSuccess := true }] [] [] rfl (by decide)

/-- C10: with an empty target path, `AddTask` picks the simple
`base + ".zip"` name exactly when the queue already holds exactly one
item, and the timestamped unique name in every other case; in particular
the first task added to an empty queue gets the unique name.  The two
names never coincide. -/
theorem c10_default_target_name (items : List QTask)
    (source base ts : String) :
    addTask items source "" base ts =
      items ++ [⟨source, if items.length = 1 then generateSimpleZipName base
                         else generateUniqueZipName base ts⟩] ∧
    generateSimpleZipName base ≠ generateUniqueZipName base ts ∧
    (addTaskChosenTarget items.length "" base ts = generateSimpleZipName base
      ↔ items.length = 1) ∧
    addTaskChosenTarget 0 "" base ts = generateUniqueZipName base ts := by
  have hne : generateSimpleZipName base ≠ generateUniqueZipName base ts := by
    intro h
    have hd := congrArg String.length h
    rw [generateSimpleZipName, generateUniqueZipName] at hd
    simp only [String.length_append] at hd
    have h4 : (".zip" : String).length = 4 := rfl
    have h1 : ("_" : String).length = 1 := rfl
    rw [h4, h1] at hd
    omega
  refine ⟨?_, hne, ?_, ?_⟩
  · by_cases h : items.length = 1 <;>
      simp [addTask, addTaskChosenTarget, h]
  · constructor
    · intro h
      by_cases hl : items.length = 1
      · exact hl
      · exfalso
        apply hne
        simpa [addTaskChosenTarget, hl] using h.symm
    · intro h
      simp [addTaskChosenTarget, h]
  · simp [addTaskChosenTarget]

/-! ## Claim theorems: the compression task (error paths) -/

/-- C7: a pre-scan that finds zero eligible files (for example, all files
hidden while hidden entries are excluded) makes `Execute` fail with the
empty-directory error before `os.Create` runs: no archive file is
created and no entry is written. -/
theorem c7_empty_scan_no_archive (inc : Bool) (rn : String) (cs : FSList)
    (fs : Option Nat) (cf : Option Bool)
    (h0 : (ctCountFiles inc rn cs).1 = 0) :
    (taskExecute inc (Except.ok (FSEntry.dir rn cs)) fs cf).result.error =
        some CErr.emptyDirectory ∧
    (taskExecute inc (Except.ok (FSEntry.dir rn cs)) fs cf).result.success
        = false ∧
    (taskExecute inc (Except.ok (FSEntry.dir rn cs)) fs cf).archiveCreated
        = false ∧
    (taskExecute inc (Except.ok (FSEntry.dir rn cs)) fs cf).entries = [] := by
  simp [taskExecute, h0]

/-- C7 (witness): a directory holding only a hidden file, hidden
excluded. -/
theorem c7_empty_scan_no_archive_witness :
    (taskExecute false (Except.ok (FSEntry.dir "d"
        (FSList.cons (FSEntry.file ".secret" 5 FileMode.ok) FSList.nil)))
        none none).result.error = some CErr.emptyDirectory ∧
    (taskExecute false (Except.ok (FSEntry.dir "d"
        (FSList.cons (FSEntry.file ".secret" 5 FileMode.ok) FSList.nil)))
        none none).result.success = false ∧
    (taskExecute false (Except.ok (FSEntry.dir "d"
        (FSList.cons (FSEntry.file ".secret" 5 FileMode.ok) FSList.nil)))
        none none).archiveCreated = false ∧
    (taskExecute false (Except.ok (FSEntry.dir "d"
        (FSList.cons (FSEntry.file ".secret" 5 FileMode.ok) FSList.nil)))
        none none).entries = [] :=
  c7_empty_scan_no_archive false "d"
    (FSList.cons (FSEntry.file ".secret" 5 FileMode.ok) FSList.nil)
    none none (by decide)

/-- C6: the free-space check runs between the pre-scan and `os.Create`:
with a non-empty scan whose total size exceeds the reported free space,
`Execute` fails with `ErrDiskSpaceInsufficient` and no archive file is
created; and a failed `Statfs` (`freeSpace = none`) behaves exactly like
a query reporting enough space — the check is a no-op, not a failure. -/
theorem c6_disk_preflight (inc : Bool) (rn : String) (cs : FSList) (f : Nat)
    (cf : Option Bool)
    (hn : (ctCountFiles inc rn cs).1 ≠ 0)
    (hf : (ctCountFiles inc rn cs).2 > f) :
    (taskExecute inc (Except.ok (FSEntry.dir rn cs)) (some f) cf).result.error
        = some CErr.diskSpaceInsufficient ∧
    (taskExecute inc (Except.ok (FSEntry.dir rn cs)) (some f) cf).result.success
        = false ∧
    (taskExecute inc (Except.ok (FSEntry.dir rn cs)) (some f) cf).archiveCreated
        = false ∧
    (taskExecute inc (Except.ok (FSEntry.dir rn cs)) (some f) cf).entries = [] ∧
    taskExecute inc (Except.ok (FSEntry.dir rn cs)) none cf =
      taskExecute inc (Except.ok (FSEntry.dir rn cs))
        (some (ctCountFiles inc rn cs).2) cf := by
  refine ⟨?_, ?_, ?_, ?_, ?_⟩ <;>
    simp [taskExecute, checkDiskSpace, hn, hf]

/-- C6 (witness): one 10-byte file against 3 free bytes. -/
theorem c6_disk_preflight_witness :
    (taskExecute false (Except.ok (FSEntry.dir "d"
        (FSList.cons (FSEntry.file "a" 10 FileMode.ok) FSList.nil)))
        (some 3) none).result.error = some CErr.diskSpaceInsufficient ∧
    (taskExecute false (Except.ok (FSEntry.dir "d"
        (FSList.cons (FSEntry.file "a" 10 FileMode.ok) FSList.nil)))
        (some 3) none).result.success = false ∧
    (taskExecute false (Except.ok (FSEntry.dir "d"
        (FSList.cons (FSEntry.file "a" 10 FileMode.ok) FSList.nil)))
        (some 3) none).archiveCreated = false ∧
    (taskExecute false (Except.ok (FSEntry.dir "d"
        (FSList.cons (FSEntry.file "a" 10 FileMode.ok) FSList.nil)))
        (some 3) none).entries = [] ∧
    taskExecute false (Except.ok (FSEntry.dir "d"
        (FSList.cons (FSEntry.file "a" 10 FileMode.ok) FSList.nil))) none none =
      taskExecute false (Except.ok (FSEntry.dir "d"
        (FSList.cons (FSEntry.file "a" 10 FileMode.ok) FSList.nil)))
        (some (ctCountFiles false "d"
          (FSList.cons (FSEntry.file "a" 10 FileMode.ok) FSList.nil)).2) none :=
  c6_disk_preflight false "d"
    (FSList.cons (FSEntry.file "a" 10 FileMode.ok) FSList.nil)
    3 none (by decide) (by decide)

/-- C8: when the compression phase of `CompressUploadTaskUnit.Run` fails,
the result is marked non-retryable with the compression error and message
propagated, nothing is added to the shared aggregator and no upload is
attempted; on a successful compression the three counters are added to an
attached aggregator exactly once and the upload runs. -/
theorem c8_bridge_failure_and_stats (cr₁ cr₂ : CompressResultM)
    (st : Option StatsM) (up : Option TaskRunResultM) (da rf : Bool)
    (h₁ : cr₁.success = false) (h₂ : cr₂.success = true) :
    ((bridgeRun cr₁ st up da rf).result.needRetry = false ∧
     (bridgeRun cr₁ st up da rf).result.succeed = false ∧
     (bridgeRun cr₁ st up da rf).result.err = cr₁.error ∧
     (bridgeRun cr₁ st up da rf).result.resultMessage =
        "压缩失败: " ++ errText cr₁.error ∧
     (bridgeRun cr₁ st up da rf).statistic = st ∧
     (bridgeRun cr₁ st up da rf).uploadAttempted = false) ∧
    ((bridgeRun cr₂ st up da rf).uploadAttempted = true ∧
     (bridgeRun cr₂ st up da rf).statistic =
        st.map (fun s => statAddCompress s cr₂)) := by
  constructor
  · simp [bridgeRun, h₁]
  · cases st <;> simp [bridgeRun, h₂, Option.map]

/-- C9: on an existing directory parent, `GetSubDirectories(parent, depth)`
returns: for depth 0 exactly `[parent]`; for depth 1 exactly the
immediate child directories (parent excluded); for any negative depth
every nested directory at any depth (parent excluded); and for any depth
`d > 1` all directories up to `d` levels below the parent with deeper
subtrees pruned. -/
theorem c9_getSubDirectories (n pp : String) (cs : FSList) (d₁ d₂ : Int)
    (hneg : d₁ < 0) (hpos : 1 < d₂) :
    getSubDirectories (FSEntry.dir n cs) pp 0 = some [pp] ∧
    getSubDirectories (FSEntry.dir n cs) pp 1 =
      some (readDirImmediate pp cs) ∧
    getSubDirectories (FSEntry.dir n cs) pp 1 = some (dirsUpToL pp 1 cs) ∧
    getSubDirectories (FSEntry.dir n cs) pp d₁ = some (allDirsL pp cs) ∧
    getSubDirectories (FSEntry.dir n cs) pp d₂ =
      some (dirsUpToL pp d₂.toNat cs) := by
  have h10 : d₁ ≠ 0 := by omega
  have h11 : d₁ ≠ 1 := by omega
  have h20 : d₂ ≠ 0 := by omega
  have h21 : d₂ ≠ 1 := by omega
  refine ⟨?_, ?_, ?_, ?_, ?_⟩
  · simp [getSubDirectories]
  · simp [getSubDirectories]
  · simp [getSubDirectories, dirsUpToL_one_eq_readDir]
  · simp [getSubDirectories, h10, h11, walkDirsL_neg d₁ hneg cs pp 1]
  · have hw := walkDirsL_pos d₂ hpos cs pp 1 (by omega) (by push_cast; omega)
    have hb : (d₂ + 1 - ((1 : Nat) : Int)).toNat = d₂.toNat := by
      push_cast
      omega
    rw [hb] at hw
    simp [getSubDirectories, h20, h21, hw]

/-- C9 (witness): a three-level tree (`a/b/c` plus files) at depths
`0`, `1`, `-1`, `2`. -/
theorem c9_getSubDirectories_witness :
    getSubDirectories (FSEntry.dir "p"
        (FSList.cons (FSEntry.dir "a"
          (FSList.cons (FSEntry.dir "b"
            (FSList.cons (FSEntry.dir "c" FSList.nil) FSList.nil))
            FSList.nil))
          (FSList.cons (FSEntry.file "f" 1 FileMode.ok) FSList.nil)))
        "/p" 0 = some ["/p"] ∧
    getSubDirectories (FSEntry.dir "p"
        (FSList.cons (FSEntry.dir "a"
          (FSList.cons (FSEntry.dir "b"
            (FSList.cons (FSEntry.dir "c" FSList.nil) FSList.nil))
            FSList.nil))
          (FSList.cons (FSEntry.file "f" 1 FileMode.ok) FSList.nil)))
        "/p" 1 = some (readDirImmediate "/p"
          (FSList.cons (FSEntry.dir "a"
            (FSList.cons (FSEntry.dir "b"
              (FSList.cons (FSEntry.dir "c" FSList.nil) FSList.nil))
              FSList.nil))
            (FSList.cons (FSEntry.file "f" 1 FileMode.ok) FSList.nil))) ∧
    getSubDirectories (FSEntry.dir "p"
        (FSList.cons (FSEntry.dir "a"
          (FSList.cons (FSEntry.dir "b"
            (FSList.cons (FSEntry.dir "c" FSList.nil) FSList.nil))
            FSList.nil))
          (FSList.cons (FSEntry.file "f" 1 FileMode.ok) FSList.nil)))
        "/p" 1 = some (dirsUpToL "/p" 1
          (FSList.cons (FSEntry.dir "a"
            (FSList.cons (FSEntry.dir "b"
              (FSList.cons (FSEntry.dir "c" FSList.nil) FSList.nil))
              FSList.nil))
            (FSList.cons (FSEntry.file "f" 1 FileMode.ok) FSList.nil))) ∧
    getSubDirectories (FSEntry.dir "p"
        (FSList.cons (FSEntry.dir "a"
          (FSList.cons (FSEntry.dir "b"
            (FSList.cons (FSEntry.dir "c" FSList.nil) FSList.nil))
            FSList.nil))
          (FSList.cons (FSEntry.file "f" 1 FileMode.ok) FSList.nil)))
        "/p" (-1) = some (allDirsL "/p"
          (FSList.cons (FSEntry.dir "a"
            (FSList.cons (FSEntry.dir "b"
              (FSList.cons (FSEntry.dir "c" FSList.nil) FSList.nil))
              FSList.nil))
            (FSList.cons (FSEntry.file "f" 1 FileMode.ok) FSList.nil))) ∧
    getSubDirectories (FSEntry.dir "p"
        (FSList.cons (FSEntry.dir "a"
          (FSList.cons (FSEntry.dir "b"
            (FSList.cons (FSEntry.dir "c" FSList.nil) FSList.nil))
            FSList.nil))
          (FSList.cons (FSEntry.file "f" 1 FileMode.ok) FSList.nil)))
        "/p" 2 = some (dirsUpToL "/p" (2 : Int).toNat
          (FSList.cons (FSEntry.dir "a"
            (FSList.cons (FSEntry.dir "b"
              (FSList.cons (FSEntry.dir "c" FSList.nil) FSList.nil))
              FSList.nil))
            (FSList.cons (FSEntry.file "f" 1 FileMode.ok) FSList.nil))) :=
  c9_getSubDirectories "p" "/p"
    (FSList.cons (FSEntry.dir "a"
      (FSList.cons (FSEntry.dir "b"
        (FSList.cons (FSEntry.dir "c" FSList.nil) FSList.nil))
        FSList.nil))
      (FSList.cons (FSEntry.file "f" 1 FileMode.ok) FSList.nil))
    (-1) 2 (by decide) (by decide)

/-- C2 (counterexample): a directory `d` holding one 1-byte file and no
empty subdirectory.  The run succeeds with `TotalFiles = 1`, so the claim
predicts exactly one file entry and zero directory markers — but the
archive holds two entries, including the marker `"d/"` for the non-empty
root directory: the code writes a marker for *every* visited directory,
not only for empty subdirectories. -/
theorem c2_counterexample :
    (taskExecute false (Except.ok (FSEntry.dir "d"
        (FSList.cons (FSEntry.file "a" 1 FileMode.ok) FSList.nil)))
        none none).result.success = true ∧
    (taskExecute false (Except.ok (FSEntry.dir "d"
        (FSList.cons (FSEntry.file "a" 1 FileMode.ok) FSList.nil)))
        none none).result.totalFiles = 1 ∧
    emptyDirCountL (FSList.cons (FSEntry.file "a" 1 FileMode.ok) FSList.nil)
        = 0 ∧
    (taskExecute false (Except.ok (FSEntry.dir "d"
        (FSList.cons (FSEntry.file "a" 1 FileMode.ok) FSList.nil)))
        none none).entries = ["d/", "d/a"] ∧
    ((taskExecute false (Except.ok (FSEntry.dir "d"
        (FSList.cons (FSEntry.file "a" 1 FileMode.ok) FSList.nil)))
        none none).entries.countP endsWithSlash) = 1 := by
  decide

/-- C2 (amended): a successful `Execute` on a directory with `N` eligible
files totaling `S` bytes returns `TotalFiles = N` and `TotalSize = S`,
and the archive contains exactly `N` file entries plus one directory
marker entry (name ending in `"/"`) for *every* directory the walk
visits — the root and each non-hidden subdirectory, whether empty or
not — rather than only for empty subdirectories. -/
theorem c2_amended_archive_contents (inc : Bool) (rn : String) (cs : FSList)
    (fs : Option Nat) (cf : Option Bool)
    (hwf : wfL cs = true)
    (hs : (taskExecute inc (Except.ok (FSEntry.dir rn cs)) fs cf).result.success
        = true) :
    (taskExecute inc (Except.ok (FSEntry.dir rn cs)) fs cf).result.totalFiles
        = (ctCountFiles inc rn cs).1 ∧
    (taskExecute inc (Except.ok (FSEntry.dir rn cs)) fs cf).result.totalSize
        = (ctCountFiles inc rn cs).2 ∧
    ((taskExecute inc (Except.ok (FSEntry.dir rn cs)) fs cf).entries.countP
        endsWithSlash) = 1 + eligDirsL inc cs ∧
    ((taskExecute inc (Except.ok (FSEntry.dir rn cs)) fs cf).entries.countP
        (fun s => !endsWithSlash s)) = (ctCountFiles inc rn cs).1 ∧
    (taskExecute inc (Except.ok (FSEntry.dir rn cs)) fs cf).entries.length
        = (1 + eligDirsL inc cs) + (ctCountFiles inc rn cs).1 := by
  obtain ⟨h0, es, pc, hW, hout⟩ :=
    taskExecute_success_inv inc rn cs fs cf hs
  have hr := root_not_hidden_of_count_ne inc rn cs h0
  have hctc := ctCountFiles_vis inc rn cs hr
  rw [zipWalkRoot] at hW
  rw [if_neg (by simp [hr])] at hW
  rcases hL : zipWalkList inc rn cs with ⟨es2, r2⟩
  rw [hL] at hW
  simp only [Prod.mk.injEq] at hW
  obtain ⟨hes, hr2⟩ := hW
  have hcnt := zipWalk_counts_L inc cs rn hwf es2 pc (by rw [hL, hr2])
  have h1 := hcnt.1
  have h2 := hcnt.2.1
  have h3 := hcnt.2.2
  rw [hout]
  refine ⟨by simp, by simp, ?_, ?_, ?_⟩
  · simp only
    rw [← hes, List.countP_cons]
    simp [endsWithSlash_marker, h1]
    omega
  · simp only
    rw [← hes, List.countP_cons]
    simp [endsWithSlash_marker, h2, hctc]
  · simp only
    rw [← hes, List.length_cons]
    rw [hctc]
    omega

/-- C2 (witness for the amended claim): root `root` with a non-empty
subdirectory `sub`, an empty subdirectory `emp`, and a file — 2 eligible
files, 3 bytes, 3 markers (root, `sub`, `emp`), 5 entries. -/
theorem c2_amended_archive_contents_witness :
    (taskExecute false (Except.ok (FSEntry.dir "root"
        (FSList.cons (FSEntry.dir "sub"
            (FSList.cons (FSEntry.file "x" 2 FileMode.ok) FSList.nil))
          (FSList.cons (FSEntry.dir "emp" FSList.nil)
            (FSList.cons (FSEntry.file "a" 1 FileMode.ok) FSList.nil)))))
        none none).result.totalFiles =
      (ctCountFiles false "root"
        (FSList.cons (FSEntry.dir "sub"
            (FSList.cons (FSEntry.file "x" 2 FileMode.ok) FSList.nil))
          (FSList.cons (FSEntry.dir "emp" FSList.nil)
            (FSList.cons (FSEntry.file "a" 1 FileMode.ok) FSList.nil)))).1 ∧
    (taskExecute false (Except.ok (FSEntry.dir "root"
        (FSList.cons (FSEntry.dir "sub"
            (FSList.cons (FSEntry.file "x" 2 FileMode.ok) FSList.nil))
          (FSList.cons (FSEntry.dir "emp" FSList.nil)
            (FSList.cons (FSEntry.file "a" 1 FileMode.ok) FSList.nil)))))
        none none).result.totalSize =
      (ctCountFiles false "root"
        (FSList.cons (FSEntry.dir "sub"
            (FSList.cons (FSEntry.file "x" 2 FileMode.ok) FSList.nil))
          (FSList.cons (FSEntry.dir "emp" FSList.nil)
            (FSList.cons (FSEntry.file "a" 1 FileMode.ok) FSList.nil)))).2 ∧
    ((taskExecute false (Except.ok (FSEntry.dir "root"
        (FSList.cons (FSEntry.dir "sub"
            (FSList.cons (FSEntry.file "x" 2 FileMode.ok) FSList.nil))
          (FSList.cons (FSEntry.dir "emp" FSList.nil)
            (FSList.cons (FSEntry.file "a" 1 FileMode.ok) FSList.nil)))))
        none none).entries.countP endsWithSlash) =
      1 + eligDirsL false
        (FSList.cons (FSEntry.dir "sub"
            (FSList.cons (FSEntry.file "x" 2 FileMode.ok) FSList.nil))
          (FSList.cons (FSEntry.dir "emp" FSList.nil)
            (FSList.cons (FSEntry.file "a" 1 FileMode.ok) FSList.nil))) ∧
    ((taskExecute false (Except.ok (FSEntry.dir "root"
        (FSList.cons (FSEntry.dir "sub"
            (FSList.cons (FSEntry.file "x" 2 FileMode.ok) FSList.nil))
          (FSList.cons (FSEntry.dir "emp" FSList.nil)
            (FSList.cons (FSEntry.file "a" 1 FileMode.ok) FSList.nil)))))
        none none).entries.countP (fun s => !endsWithSlash s)) =
      (ctCountFiles false "root"
        (FSList.cons (FSEntry.dir "sub"
            (FSList.cons (FSEntry.file "x" 2 FileMode.ok) FSList.nil))
          (FSList.cons (FSEntry.dir "emp" FSList.nil)
            (FSList.cons (FSEntry.file "a" 1 FileMode.ok) FSList.nil)))).1 ∧
    (taskExecute false (Except.ok (FSEntry.dir "root"
        (FSList.cons (FSEntry.dir "sub"
            (FSList.cons (FSEntry.file "x" 2 FileMode.ok) FSList.nil))
          (FSList.cons (FSEntry.dir "emp" FSList.nil)
            (FSList.cons (FSEntry.file "a" 1 FileMode.ok) FSList.nil)))))
        none none).entries.length =
      (1 + eligDirsL false
        (FSList.cons (FSEntry.dir "sub"
            (FSList.cons (FSEntry.file "x" 2 FileMode.ok) FSList.nil))
          (FSList.cons (FSEntry.dir "emp" FSList.nil)
            (FSList.cons (FSEntry.file "a" 1 FileMode.ok) FSList.nil)))) +
      (ctCountFiles false "root"
        (FSList.cons (FSEntry.dir "sub"
            (FSList.cons (FSEntry.file "x" 2 FileMode.ok) FSList.nil))
          (FSList.cons (FSEntry.dir "emp" FSList.nil)
            (FSList.cons (FSEntry.file "a" 1 FileMode.ok) FSList.nil)))).1 :=
  c2_amended_archive_contents false "root"
    (FSList.cons (FSEntry.dir "sub"
        (FSList.cons (FSEntry.file "x" 2 FileMode.ok) FSList.nil))
      (FSList.cons (FSEntry.dir "emp" FSList.nil)
        (FSList.cons (FSEntry.file "a" 1 FileMode.ok) FSList.nil)))
    none none (by decide) (by decide)

/-- C5: during archive writing, permission errors opening individual
files only skip those files — a tree whose eligible files all open or are
permission-skipped compresses successfully, packaging exactly the bytes
of the files actually copied — while a walk ended by any other I/O error
(open failure or copy failure, witnessed by the abort value `ab`) makes
the whole task fail with `ErrCompressFailed` wrapping the cause. -/
theorem c5_perm_skip_other_abort (inc : Bool) (rn₁ : String) (cs₁ : FSList)
    (rn₂ : String) (cs₂ : FSList) (ab : WalkAbort)
    (h₁ : noAbortL inc cs₁ = true)
    (h₁n : (ctCountFiles inc rn₁ cs₁).1 ≠ 0)
    (h₂ : (zipWalkRoot inc rn₂ cs₂).2 = Except.error ab)
    (h₂n : (ctCountFiles inc rn₂ cs₂).1 ≠ 0) :
    ((taskExecute inc (Except.ok (FSEntry.dir rn₁ cs₁)) none none).result.success
        = true ∧
     (taskExecute inc (Except.ok (FSEntry.dir rn₁ cs₁)) none none).result.compressedSize
        = (okStatsL inc cs₁).2) ∧
    ((taskExecute inc (Except.ok (FSEntry.dir rn₂ cs₂)) none none).result.success
        = false ∧
     (taskExecute inc (Except.ok (FSEntry.dir rn₂ cs₂)) none none).result.error
        = some CErr.compressFailed) := by
  constructor
  · have hr1 := root_not_hidden_of_count_ne inc rn₁ cs₁ h₁n
    have hwalk := zipWalkRoot_ok_of_noAbort inc rn₁ cs₁ h₁ hr1
    rcases hW : zipWalkRoot inc rn₁ cs₁ with ⟨es, r⟩
    rw [hW] at hwalk
    have hr' : r = Except.ok (okStatsL inc cs₁) := hwalk
    subst hr'
    constructor <;> simp [taskExecute, h₁n, checkDiskSpace, hW]
  · rcases hW : zipWalkRoot inc rn₂ cs₂ with ⟨es, r⟩
    rw [hW] at h₂
    have hr' : r = Except.error ab := h₂
    subst hr'
    constructor <;> simp [taskExecute, h₂n, checkDiskSpace, hW]

/-- C5 (witness): a directory with one readable file and one
permission-denied file compresses fine (10 bytes packaged); a directory
whose file fails during copy aborts with `ErrCompressFailed`. -/
theorem c5_perm_skip_other_abort_witness :
    ((taskExecute false (Except.ok (FSEntry.dir "d1"
        (FSList.cons (FSEntry.file "a" 10 FileMode.ok)
          (FSList.cons (FSEntry.file "b" 20 FileMode.openPermDenied)
            FSList.nil)))) none none).result.success = true ∧
     (taskExecute false (Except.ok (FSEntry.dir "d1"
        (FSList.cons (FSEntry.file "a" 10 FileMode.ok)
          (FSList.cons (FSEntry.file "b" 20 FileMode.openPermDenied)
            FSList.nil)))) none none).result.compressedSize =
        (okStatsL false (FSList.cons (FSEntry.file "a" 10 FileMode.ok)
          (FSList.cons (FSEntry.file "b" 20 FileMode.openPermDenied)
            FSList.nil))).2) ∧
    ((taskExecute false (Except.ok (FSEntry.dir "d2"
        (FSList.cons (FSEntry.file "c" 10 FileMode.copyErr) FSList.nil)))
        none none).result.success = false ∧
     (taskExecute false (Except.ok (FSEntry.dir "d2"
        (FSList.cons (FSEntry.file "c" 10 FileMode.copyErr) FSList.nil)))
        none none).result.error = some CErr.compressFailed) :=
  c5_perm_skip_other_abort false "d1"
    (FSList.cons (FSEntry.file "a" 10 FileMode.ok)
      (FSList.cons (FSEntry.file "b" 20 FileMode.openPermDenied) FSList.nil))
    "d2" (FSList.cons (FSEntry.file "c" 10 FileMode.copyErr) FSList.nil)
    (WalkAbort.copyFailed "d2/c") (by decide) (by decide) rfl (by decide)

/-- Concrete inputs for the C8 witness. -/
def c8FailResult : CompressResultM :=
  { success := false, error := some CErr.compressFailed }

def c8OkResult : CompressResultM :=
  { success := true, totalFiles := 3, totalSize := 60, compressedSize := 60 }

def c8Upload : TaskRunResultM := { succeed := true }

/-- C8 (witness): a failed compression with `ErrCompressFailed` next to a
successful one rolled into an attached aggregator. -/
theorem c8_bridge_failure_and_stats_witness :
    ((bridgeRun c8FailResult (some {}) (some c8Upload) true false).result.needRetry
        = false ∧
     (bridgeRun c8FailResult (some {}) (some c8Upload) true false).result.succeed
        = false ∧
     (bridgeRun c8FailResult (some {}) (some c8Upload) true false).result.err
        = c8FailResult.error ∧
     (bridgeRun c8FailResult (some {}) (some c8Upload) true false).result.resultMessage
        = "压缩失败: " ++ errText c8FailResult.error ∧
     (bridgeRun c8FailResult (some {}) (some c8Upload) true false).statistic
        = some {} ∧
     (bridgeRun c8FailResult (some {}) (some c8Upload) true false).uploadAttempted
        = false) ∧
    ((bridgeRun c8OkResult (some {}) (some c8Upload) true false).uploadAttempted
        = true ∧
     (bridgeRun c8OkResult (some {}) (some c8Upload) true false).statistic
        = (some ({} : StatsM)).map (fun s => statAddCompress s c8OkResult)) :=
  c8_bridge_failure_and_stats c8FailResult c8OkResult (some {}) (some c8Upload)
    true false rfl rfl

end PCS
